import Mathlib

/-!
Verification development for the meeting-bot post-call processing pipeline.

The definitions below are a shallow embedding of the repository's
TypeScript/JavaScript sources:
  - `dist/controllers/callingController.js` (call lifecycle tracker, manual join),
  - `src/services/transcriptService.ts` (availability poller),
  - `src/services/openaiService.ts` (minutes generation / response parsing),
  - `src/services/authService.ts` + call service (join URL validation),
  - `src/services/vttParser.ts` (caption-track parser).

JavaScript strings are modelled as `List Char` (named `Str` below); external
collaborators (Microsoft Graph, the OpenAI client, the system clock) are
modelled as explicit oracle parameters; `try`/`catch` becomes `Except`.
-/

/-- JavaScript strings are modelled as lists of characters. -/
abbrev Str := List Char

/-! ## Call lifecycle tracker (`dist/controllers/callingController.js`) -/

/-- The per-call association recorded in the `activeCalls` map
(`{ meetingId, userId }` in the controller). -/
structure CallData where
  meetingId : Str
  userId : Str
deriving DecidableEq, Repr

/-- Modelled from the spec: the Call Info collaborator's report for a call
(`callService.getCall` returns Graph call details; the controller binds the
result but never reads its fields, so only the meeting/user pair the
collaborator "reports" is modelled, per spec section 4.1). -/
structure CallReport where
  meetingId : Str
  userId : Str
deriving DecidableEq, Repr

/-- The tuple handed off to the post-meeting pipeline
(`processMeetingAsync(meetingId, userId, callId)`). -/
structure Handoff where
  meetingId : Str
  userId : Str
  callId : Str
deriving DecidableEq, Repr

/-- The `activeCalls` JavaScript `Map`, modelled as an insertion-ordered
association list with unique keys. -/
abbrev CallMap := List (Str × CallData)

/-- `Map.get(k)`: first entry with the given key. -/
def mapGet (m : CallMap) (k : Str) : Option CallData :=
  (m.find? (fun p => p.1 == k)).map (fun p => p.2)

/-- `Map.set(k, v)`: update in place if the key exists, else append. -/
def mapSet : CallMap → Str → CallData → CallMap
  | [], k, v => [(k, v)]
  | (k', v') :: rest, k, v =>
    if k' == k then (k, v) :: rest else (k', v') :: mapSet rest k v

/-- `Map.delete(k)`: remove the entry with the given key. -/
def mapDelete (m : CallMap) (k : Str) : CallMap :=
  m.filter (fun p => !(p.1 == k))

/-- `handleCallEstablished`: looks up call details via the Call Info
collaborator; on success records the *placeholder* association
(`MEETING_ID_PLACEHOLDER`, `USER_ID_PLACEHOLDER`) for the call; on a lookup
failure the `catch` block leaves the map unchanged. -/
def handleCallEstablished (getCallResult : Except Str CallReport)
    (callId : Str) (m : CallMap) : CallMap :=
  match getCallResult with
  | .error _ => m
  | .ok _ =>
      mapSet m callId
        ⟨"MEETING_ID_PLACEHOLDER".data, "USER_ID_PLACEHOLDER".data⟩

/-- `handleCallTerminated`: reads the association; if absent, a logged no-op;
if present, deletes it and hands off `(meetingId, userId, callId)` to the
pipeline. -/
def handleCallTerminated (callId : Str) (m : CallMap) :
    CallMap × Option Handoff :=
  match mapGet m callId with
  | none => (m, none)
  | some cd => (mapDelete m callId, some ⟨cd.meetingId, cd.userId, callId⟩)

/-- A webhook call event as dispatched by `processCallEvent`; the
`established` case carries the Call Info collaborator's outcome for the
`getCall` lookup performed by the handler. -/
inductive CallEvent where
  | establishing (callId : Str)
  | established (callId : Str) (getCallResult : Except Str CallReport)
  | terminated (callId : Str)
  | other (callId : Str)
deriving Repr

/-- `processCallEvent`: dispatch on `resourceData.state`; `Establishing` and
unhandled states only log. -/
def processCallEvent (m : CallMap) : CallEvent → CallMap × Option Handoff
  | .establishing _ => (m, none)
  | .established c r => (handleCallEstablished r c m, none)
  | .terminated c => handleCallTerminated c m
  | .other _ => (m, none)

/-- Process a batch of webhook events in order, collecting pipeline handoffs. -/
def runEvents (m : CallMap) : List CallEvent → CallMap × List Handoff
  | [] => (m, [])
  | e :: rest =>
    let step := processCallEvent m e
    let next := runEvents step.1 rest
    (next.1, step.2.toList ++ next.2)

/-- Does this event record an association for call `c` (a successful
`Established` lookup for `c`)? -/
def establishes (c : Str) : CallEvent → Bool
  | .established c' (.ok _) => c' == c
  | _ => false

/-! ## Availability poller (`src/services/transcriptService.ts`) -/

/-- Error taxonomy of `src/types` relevant to the poller
(`MeetingBotError` with a machine code; `TranscriptNotFoundError` is the
`TRANSCRIPT_NOT_FOUND` subclass carrying the meeting identifier;
`OpenAIError` is the `OPENAI_ERROR` subclass). -/
inductive BotError where
  | meetingBot (msg : Str) (code : Str)
  | transcriptNotFound (meetingId : Str)
  | openai (msg : Str)
deriving DecidableEq, Repr

/-- A transcript descriptor (`Transcript` in `src/types`); `createdDateTime`
is modelled as the integer returned by `new Date(...).getTime()`. -/
structure Transcript where
  id : Str
  meetingId : Str
  createdDateTime : Int
  content : Option Str
deriving DecidableEq, Repr

/-- The Transcript Store collaborator (Microsoft Graph), modelled as an
oracle giving the outcome of the n-th list query and the n-th content
download issued by this service. -/
structure GraphEnv where
  listResults : Nat → Except Str (List Transcript)
  downloadResults : Nat → Except Str Str

/-- Counters observing the poller's interaction with its collaborators:
list queries issued, content downloads issued, inter-attempt delays slept. -/
structure PollState where
  queries : Nat
  downloads : Nat
  delays : Nat
deriving DecidableEq, Repr

/-- `getTranscripts`: one list query against Graph; a missing/empty `value`
is returned as `[]`; any thrown error is wrapped as
`GET_TRANSCRIPTS_FAILED`. -/
def getTranscripts (env : GraphEnv) (s : PollState) :
    Except BotError (List Transcript) × PollState :=
  match env.listResults s.queries with
  | .ok ts => (.ok ts, { s with queries := s.queries + 1 })
  | .error e =>
      (.error (.meetingBot ("Failed to get transcripts: ".data ++ e)
        "GET_TRANSCRIPTS_FAILED".data),
       { s with queries := s.queries + 1 })

/-- `downloadTranscript`: one content download; any thrown error is wrapped
as `DOWNLOAD_TRANSCRIPT_FAILED`. -/
def downloadTranscript (env : GraphEnv) (s : PollState) :
    Except BotError Str × PollState :=
  match env.downloadResults s.downloads with
  | .ok c => (.ok c, { s with downloads := s.downloads + 1 })
  | .error e =>
      (.error (.meetingBot ("Failed to download transcript: ".data ++ e)
        "DOWNLOAD_TRANSCRIPT_FAILED".data),
       { s with downloads := s.downloads + 1 })

/-- `transcripts.sort((a, b) => timeB - timeA)[0]`: the head of a stable
descending sort is the first element with the greatest creation timestamp. -/
def firstMax (t0 : Transcript) (rest : List Transcript) : Transcript :=
  rest.foldl (fun m t => if t.createdDateTime > m.createdDateTime then t else m) t0

/-- `getLatestTranscript`: list the meeting's transcripts; if none, throw
`TranscriptNotFoundError(meetingId)`; else download the one with the
greatest `createdDateTime`. Errors are rethrown unchanged. -/
def getLatestTranscript (env : GraphEnv) (meetingId : Str) (s : PollState) :
    Except BotError Str × PollState :=
  match getTranscripts env s with
  | (.error e, s1) => (.error e, s1)
  | (.ok ts, s1) =>
    match ts with
    | [] => (.error (.transcriptNotFound meetingId), s1)
    | t0 :: rest =>
        let _latest := firstMax t0 rest
        downloadTranscript env s1

/-- One round of `waitForTranscript`'s `for` loop, by remaining attempts:
`remaining = 0` corresponds to the loop being exhausted
(`throw new TranscriptNotFoundError(meetingId)`), and the current attempt is
the last one exactly when `remaining = 1` (the `attempt < maxAttempts` guard
on the delay). Errors from either the list query or the
`getLatestTranscript` call are caught, consume the attempt, and are retried
after the (conditional) delay. -/
def waitLoop (env : GraphEnv) (meetingId : Str) :
    Nat → PollState → Except BotError Str × PollState
  | 0, s => (.error (.transcriptNotFound meetingId), s)
  | remaining + 1, s =>
    let doDelay : PollState → PollState := fun st =>
      if remaining > 0 then { st with delays := st.delays + 1 } else st
    match getTranscripts env s with
    | (.ok ts, s1) =>
      if ts.length > 0 then
        match getLatestTranscript env meetingId s1 with
        | (.ok content, s2) => (.ok content, s2)
        | (.error _, s2) => waitLoop env meetingId remaining (doDelay s2)
      else
        waitLoop env meetingId remaining (doDelay s1)
    | (.error _, s1) => waitLoop env meetingId remaining (doDelay s1)

/-- `waitForTranscript(userId, meetingId, maxAttempts, delayMs)`: poll from a
fresh interaction state. -/
def waitForTranscript (env : GraphEnv) (meetingId : Str) (maxAttempts : Nat) :
    Except BotError Str × PollState :=
  waitLoop env meetingId maxAttempts ⟨0, 0, 0⟩

/-! ## Helper lemmas about the `activeCalls` map -/

theorem mapGet_cons_ne (p : Str × CallData) (rest : CallMap) (c : Str)
    (h : (p.1 == c) = false) : mapGet (p :: rest) c = mapGet rest c := by
  simp [mapGet, List.find?, h]

theorem mapGet_cons_eq (p : Str × CallData) (rest : CallMap) (c : Str)
    (h : (p.1 == c) = true) : mapGet (p :: rest) c = some p.2 := by
  simp [mapGet, List.find?, h]

theorem mapDelete_cons_eq (p : Str × CallData) (rest : CallMap) (c : Str)
    (h : (p.1 == c) = true) : mapDelete (p :: rest) c = mapDelete rest c := by
  simp [mapDelete, List.filter_cons, h]

theorem mapDelete_cons_ne (p : Str × CallData) (rest : CallMap) (c : Str)
    (h : (p.1 == c) = false) :
    mapDelete (p :: rest) c = p :: mapDelete rest c := by
  simp [mapDelete, List.filter_cons, h]

theorem mapGet_delete_self (m : CallMap) (c : Str) :
    mapGet (mapDelete m c) c = none := by
  induction m with
  | nil => rfl
  | cons p rest ih =>
    by_cases h : p.1 == c
    · rw [mapDelete_cons_eq p rest c h]; exact ih
    · rw [mapDelete_cons_ne p rest c (by simpa using h),
        mapGet_cons_ne p _ c (by simpa using h)]
      exact ih

theorem mapGet_delete_ne (m : CallMap) (c' c : Str) (h : (c' == c) = false) :
    mapGet (mapDelete m c') c = mapGet m c := by
  induction m with
  | nil => rfl
  | cons p rest ih =>
    by_cases hp : p.1 == c'
    · have h1 : p.1 = c' := by simpa using hp
      have hpc : (p.1 == c) = false := by rw [h1]; exact h
      rw [mapDelete_cons_eq p rest c' hp, mapGet_cons_ne p rest c hpc]
      exact ih
    · rw [mapDelete_cons_ne p rest c' (by simpa using hp)]
      by_cases hc : p.1 == c
      · rw [mapGet_cons_eq p _ c hc, mapGet_cons_eq p rest c hc]
      · rw [mapGet_cons_ne p _ c (by simpa using hc),
          mapGet_cons_ne p rest c (by simpa using hc)]
        exact ih

theorem mapGet_set_ne (m : CallMap) (c' c : Str) (v : CallData)
    (h : (c' == c) = false) :
    mapGet (mapSet m c' v) c = mapGet m c := by
  induction m with
  | nil => simp [mapSet, mapGet, List.find?, h]
  | cons p rest ih =>
    by_cases hp : p.1 == c'
    · have h1 : p.1 = c' := by simpa using hp
      have hpc : (p.1 == c) = false := by rw [h1]; exact h
      simp only [mapSet, hp, if_true]
      rw [mapGet_cons_ne ⟨c', v⟩ rest c h, mapGet_cons_ne p rest c hpc]
    · simp only [mapSet, hp, if_false, Bool.false_eq_true]
      by_cases hc : p.1 == c
      · rw [mapGet_cons_eq p _ c hc, mapGet_cons_eq p rest c hc]
      · rw [mapGet_cons_ne p _ c (by simpa using hc),
          mapGet_cons_ne p rest c (by simpa using hc)]
        exact ih

theorem handleCallTerminated_absent (m : CallMap) (c : Str)
    (h : mapGet m c = none) : handleCallTerminated c m = (m, none) := by
  simp [handleCallTerminated, h]

/-- Claim C1 (counterexample): the claim asserts that after a Terminated
event deletes a call's association, any later Terminated event for the same
identifier triggers no handoff and the association is never recreated by a
stale event.  On the code, a stale (duplicate) `Established` event arriving
after the deletion recreates the association, and a subsequent Terminated
event then triggers a second pipeline handoff for the same call identifier. -/
theorem handoff_after_stale_established_counterexample :
    (runEvents []
      [.established "c1".data (.ok ⟨"m1".data, "u1".data⟩),
       .terminated "c1".data,
       .established "c1".data (.ok ⟨"m1".data, "u1".data⟩),
       .terminated "c1".data]).2.length = 2 ∧
    mapGet (runEvents []
      [.established "c1".data (.ok ⟨"m1".data, "u1".data⟩),
       .terminated "c1".data,
       .established "c1".data (.ok ⟨"m1".data, "u1".data⟩)]).1 "c1".data
      ≠ none := by
  decide

/-- Claim C1 (amended): handling a Terminated event removes the call's
association (so it is absent afterwards), and as long as no later successful
Established event re-records the identifier, every later event sequence
triggers no handoff for that identifier and leaves it unassociated.  (The
original claim's "the association is never recreated by a stale event" is
false: a stale successful Established event recreates it, see the
counterexample.) -/
theorem terminated_handoff_at_most_once (m : CallMap) (c : Str)
    (evs : List CallEvent)
    (hclean : ∀ e ∈ evs, establishes c e = false) :
    mapGet (handleCallTerminated c m).1 c = none ∧
    (mapGet m c = none →
      ((runEvents m evs).2.all (fun h => !(h.callId == c)) = true ∧
       mapGet (runEvents m evs).1 c = none)) := by
  constructor
  · match h : mapGet m c with
    | none => simp [handleCallTerminated, h]
    | some cd => simp [handleCallTerminated, h, mapGet_delete_self]
  · intro habs
    induction evs generalizing m with
    | nil => simpa [runEvents] using habs
    | cons e rest ih =>
      have hrest : ∀ x ∈ rest, establishes c x = false := by
        intro x hx; exact hclean x (List.mem_cons_of_mem _ hx)
      have he : establishes c e = false := hclean e (List.mem_cons_self _ _)
      cases e with
      | establishing c' =>
        simpa [runEvents, processCallEvent] using ih _ hrest habs
      | other c' =>
        simpa [runEvents, processCallEvent] using ih _ hrest habs
      | established c' r =>
        cases r with
        | error msg =>
          simpa [runEvents, processCallEvent, handleCallEstablished]
            using ih _ hrest habs
        | ok rep =>
          have hne : (c' == c) = false := by simpa [establishes] using he
          have habs' :
              mapGet (mapSet m c'
                ⟨"MEETING_ID_PLACEHOLDER".data, "USER_ID_PLACEHOLDER".data⟩)
                c = none := by
            rw [mapGet_set_ne m c' c _ hne]; exact habs
          simpa [runEvents, processCallEvent, handleCallEstablished]
            using ih _ hrest habs'
      | terminated c' =>
        by_cases hcc : c' == c
        · have h1 : c' = c := by simpa using hcc
          subst h1
          have hno := handleCallTerminated_absent m c' habs
          simpa [runEvents, processCallEvent, hno] using ih _ hrest habs
        · simp only [Bool.not_eq_true] at hcc
          match hterm : mapGet m c' with
          | none =>
            have hno := handleCallTerminated_absent m c' hterm
            simpa [runEvents, processCallEvent, hno] using ih _ hrest habs
          | some cd =>
            have habs' : mapGet (mapDelete m c') c = none := by
              rw [mapGet_delete_ne m c' c hcc]; exact habs
            have harun := ih _ hrest habs'
            simp [runEvents, processCallEvent, handleCallTerminated, hterm,
              hcc, harun.1, harun.2]

/-- Witness for the amended claim C1 at a concrete input: two consecutive
Terminated events for an unassociated identifier are no-ops. -/
theorem terminated_handoff_at_most_once_witness :
    mapGet (handleCallTerminated "c1".data []).1 "c1".data = none ∧
    (mapGet ([] : CallMap) "c1".data = none →
      ((runEvents [] [.terminated "c1".data, .terminated "c1".data]).2.all
        (fun h => !(h.callId == "c1".data)) = true ∧
       mapGet (runEvents []
         [.terminated "c1".data, .terminated "c1".data]).1 "c1".data = none)) :=
  terminated_handoff_at_most_once [] "c1".data
    [.terminated "c1".data, .terminated "c1".data] (by decide)

/-- Claim C4 (counterexample): with the Call Info collaborator reporting
that call "c1" belongs to meeting "m1" of user "u1", the
Established-then-Terminated sequence does *not* hand off ("m1","u1","c1"):
the controller stores fixed placeholder strings instead of the
collaborator's report. -/
theorem handoff_tuple_counterexample :
    (runEvents []
      [.established "c1".data (.ok ⟨"m1".data, "u1".data⟩),
       .terminated "c1".data]).2
      ≠ [⟨"m1".data, "u1".data, "c1".data⟩] := by
  decide

/-- Claim C4 (amended): `recordEstablished(c)` with any successful Call Info
lookup followed by `recordTerminated(c)` hands off exactly once, but the
tuple handed off is `("MEETING_ID_PLACEHOLDER", "USER_ID_PLACEHOLDER", c)` —
the controller ignores the collaborator's report; a third
`recordTerminated(c)` afterward is a no-op. -/
theorem established_terminated_hands_off_placeholders (c : Str)
    (rep : CallReport) :
    runEvents [] [.established c (.ok rep), .terminated c, .terminated c] =
      ([], [⟨"MEETING_ID_PLACEHOLDER".data, "USER_ID_PLACEHOLDER".data, c⟩]) := by
  simp [runEvents, processCallEvent, handleCallEstablished,
    handleCallTerminated, mapSet, mapGet, mapDelete, List.find?,
    List.filter_cons]

/-! ## Poller theorems -/

theorem waitLoop_step_ok_empty (env : GraphEnv) (meetingId : Str) (n : Nat)
    (s : PollState) (h : env.listResults s.queries = .ok []) :
    waitLoop env meetingId (n + 1) s =
      waitLoop env meetingId n
        (if 0 < n then
          (⟨s.queries + 1, s.downloads, s.delays + 1⟩ : PollState)
         else ⟨s.queries + 1, s.downloads, s.delays⟩) := by
  simp only [waitLoop, getTranscripts, h, List.length_nil, gt_iff_lt,
    Nat.lt_irrefl, if_false]

theorem waitLoop_step_error (env : GraphEnv) (meetingId : Str) (n : Nat)
    (s : PollState) (e : Str) (h : env.listResults s.queries = .error e) :
    waitLoop env meetingId (n + 1) s =
      waitLoop env meetingId n
        (if 0 < n then
          (⟨s.queries + 1, s.downloads, s.delays + 1⟩ : PollState)
         else ⟨s.queries + 1, s.downloads, s.delays⟩) := by
  simp only [waitLoop, getTranscripts, h, gt_iff_lt]

theorem waitLoop_all_empty (env : GraphEnv) (meetingId : Str) :
    ∀ (remaining : Nat) (s : PollState),
      (∀ i, s.queries ≤ i → i < s.queries + remaining →
        env.listResults i = .ok [] ∨ ∃ e, env.listResults i = .error e) →
      waitLoop env meetingId remaining s =
        (.error (.transcriptNotFound meetingId),
         ⟨s.queries + remaining, s.downloads, s.delays + (remaining - 1)⟩) := by
  intro remaining
  induction remaining with
  | zero =>
    intro s _
    simp [waitLoop]
  | succ n ih =>
    intro s h
    have h0 := h s.queries (Nat.le_refl _) (by omega)
    have hrw : waitLoop env meetingId (n + 1) s =
        waitLoop env meetingId n
          (if 0 < n then
            (⟨s.queries + 1, s.downloads, s.delays + 1⟩ : PollState)
           else ⟨s.queries + 1, s.downloads, s.delays⟩) := by
      rcases h0 with h0 | ⟨e, h0⟩
      · exact waitLoop_step_ok_empty env meetingId n s h0
      · exact waitLoop_step_error env meetingId n s e h0
    rw [hrw]
    by_cases hn : 0 < n
    · rw [if_pos hn,
        ih ⟨s.queries + 1, s.downloads, s.delays + 1⟩
          (by intro i hi1 hi2
              have hi1' : s.queries + 1 ≤ i := by simpa using hi1
              have hi2' : i < s.queries + 1 + n := by simpa using hi2
              exact h i (by omega) (by omega))]
      all_goals refine congrArg (Prod.mk _) ?_
      all_goals simp [PollState.mk.injEq] <;> omega
    · have hn0 : n = 0 := by omega
      subst hn0
      rw [if_neg hn,
        ih ⟨s.queries + 1, s.downloads, s.delays⟩
          (by intro i hi1 hi2
              have hi1' : s.queries + 1 ≤ i := by simpa using hi1
              have hi2' : i < s.queries + 1 + 0 := by simpa using hi2
              exact h i (by omega) (by omega))]
      all_goals refine congrArg (Prod.mk _) ?_
      all_goals simp [PollState.mk.injEq] <;> omega

/-- Claim C2: if every one of the first `maxAttempts` transcript-list
queries returns an empty list or fails, `waitForTranscript` fails with the
transcript-not-found condition carrying the meeting identifier, having
issued exactly `maxAttempts` list queries, no downloads, and exactly
`maxAttempts - 1` inter-attempt delays (a failed query is treated exactly
like an empty result: it consumes one attempt and is retried, not
escalated). -/
theorem waitForTranscript_exhausts_not_found (env : GraphEnv)
    (meetingId : Str) (maxAttempts : Nat) (hpos : 1 ≤ maxAttempts)
    (hempty : ∀ i, i < maxAttempts →
      env.listResults i = .ok [] ∨ ∃ e, env.listResults i = .error e) :
    waitForTranscript env meetingId maxAttempts =
      (.error (.transcriptNotFound meetingId),
       ⟨maxAttempts, 0, maxAttempts - 1⟩) := by
  have h := waitLoop_all_empty env meetingId maxAttempts ⟨0, 0, 0⟩ (by
    intro i hi1 hi2
    exact hempty i (by simpa using hi2))
  simpa [waitForTranscript] using h

/-- A collaborator environment whose first list query returns the empty
list and whose second fails. -/
def envEmptyThenFail : GraphEnv where
  listResults := fun i => if i = 0 then .ok [] else .error "boom".data
  downloadResults := fun _ => .ok "content".data

/-- Witness for claim C2 at `maxAttempts = 2`: one empty result and one
failed query exhaust the poller with the not-found error, two queries and
one delay. -/
theorem waitForTranscript_exhausts_not_found_witness :
    1 ≤ 2 ∧
    waitForTranscript envEmptyThenFail "m1".data 2 =
      (.error (.transcriptNotFound "m1".data), ⟨2, 0, 1⟩) := by
  refine ⟨by decide, waitForTranscript_exhausts_not_found envEmptyThenFail
    "m1".data 2 (by decide) ?_⟩
  intro i hi
  match i, hi with
  | 0, _ => exact Or.inl rfl
  | 1, _ => exact Or.inr ⟨"boom".data, rfl⟩

/-- Claim C9: whatever the collaborator does — the first list query, the
second list query inside `getLatestTranscript`, or the content download may
fail arbitrarily on any attempt — the only error `waitForTranscript` ever
raises is the transcript-not-found condition carrying the meeting
identifier; every collaborator error is caught inside its attempt and never
propagated. -/
theorem waitForTranscript_only_not_found (env : GraphEnv) (meetingId : Str)
    (maxAttempts : Nat) :
    (∃ c, (waitForTranscript env meetingId maxAttempts).1 = .ok c) ∨
    (waitForTranscript env meetingId maxAttempts).1 =
      .error (.transcriptNotFound meetingId) := by
  suffices h : ∀ (remaining : Nat) (s : PollState),
      (∃ c, (waitLoop env meetingId remaining s).1 = .ok c) ∨
      (waitLoop env meetingId remaining s).1 =
        .error (.transcriptNotFound meetingId) by
    exact h maxAttempts ⟨0, 0, 0⟩
  intro remaining
  induction remaining with
  | zero => intro s; right; rfl
  | succ n ih =>
    intro s
    rcases hg : getTranscripts env s with ⟨res, s1⟩
    cases res with
    | error e => simpa [waitLoop, hg] using ih _
    | ok ts =>
      by_cases hlen : ts.length > 0
      · rcases hl : getLatestTranscript env meetingId s1 with ⟨lres, s2⟩
        cases lres with
        | ok content =>
          left; exact ⟨content, by simp [waitLoop, hg, hlen, hl]⟩
        | error e => simpa [waitLoop, hg, hlen, hl] using ih _
      · simpa [waitLoop, hg, hlen] using ih _

/-! ## String helpers shared by the minutes pipeline
(JavaScript semantics on `Str`) -/

/-- Does `s` start with the pattern `pat`? (JS `startsWith`). -/
def strHasPref : Str → Str → Bool
  | [], _ => true
  | _ :: _, [] => false
  | a :: p, b :: s => a == b && strHasPref p s

/-- Does `s` contain the pattern `pat` as a contiguous substring?
(JS `includes`). -/
def strHasSub (pat : Str) : Str → Bool
  | [] => strHasPref pat []
  | c :: rest => strHasPref pat (c :: rest) || strHasSub pat rest

/-- Whitespace recognised by `JSON.parse` (tab, line feed, carriage return,
space); `String.prototype.trim` strips a superset — this development models
the common subset, which is all the pipeline's inputs use. -/
def isJsonWs (c : Char) : Bool :=
  [' ', '\t', '\n', '\r'].contains c

/-- Drop leading whitespace. -/
def trimStart (l : Str) : Str := l.dropWhile isJsonWs

/-- Drop trailing whitespace. -/
def trimEnd (l : Str) : Str := (l.reverse.dropWhile isJsonWs).reverse

/-- `s.trim()` (and the `ws value ws` wrapping of the JSON grammar). -/
def trimWs (l : Str) : Str := trimStart (trimEnd l)

/-! ## JSON values and `JSON.parse`
(the JavaScript runtime collaborator used by `parseMinutesResponse`) -/

/-- Skip JSON whitespace (used inside the value grammar). -/
def skipJsonWs (l : Str) : Str := l.dropWhile isJsonWs

/-- A parsed JSON value.  Numbers keep their source lexeme: the pipeline
never computes with them, and lexeme identity is all the claims need. -/
inductive Json where
  | null : Json
  | bool : Bool → Json
  | num : Str → Json
  | str : Str → Json
  | arr : List Json → Json
  | obj : List (Str × Json) → Json

/-- Hexadecimal digit test for `\uXXXX` escapes. -/
def isHexDigit (c : Char) : Bool :=
  let n := c.toNat
  (48 ≤ n && n ≤ 57) || (97 ≤ n && n ≤ 102) || (65 ≤ n && n ≤ 70)

/-- Value of a hexadecimal digit. -/
def hexVal (c : Char) : Nat :=
  let n := c.toNat
  if n ≤ 57 then n - 48 else if 97 ≤ n then n - 87 else n - 55

/-- JSON string escape map (`\" \\ \/ \b \f \n \r \t`). -/
def escMap : Char → Option Char
  | '"' => some '"'
  | '\\' => some '\\'
  | '/' => some '/'
  | 'b' => some (Char.ofNat 8)
  | 'f' => some (Char.ofNat 12)
  | 'n' => some '\n'
  | 'r' => some '\r'
  | 't' => some '\t'
  | _ => none

/-- Parse the body of a JSON string (after the opening quote), returning
the decoded characters and the input after the closing quote.  Raw control
characters are rejected, per the JSON grammar. -/
def parseJsonString : Nat → Str → Option (Str × Str)
  | 0, _ => none
  | fuel + 1, l =>
    match l with
    | [] => none
    | '"' :: rest => some ([], rest)
    | '\\' :: esc =>
      match esc with
      | 'u' :: h1 :: h2 :: h3 :: h4 :: rest =>
        if isHexDigit h1 && isHexDigit h2 && isHexDigit h3 && isHexDigit h4 then
          (parseJsonString fuel rest).map (fun p =>
            (Char.ofNat
              (((hexVal h1 * 16 + hexVal h2) * 16 + hexVal h3) * 16 + hexVal h4)
              :: p.1, p.2))
        else none
      | c :: rest =>
        match escMap c with
        | some c' => (parseJsonString fuel rest).map (fun p => (c' :: p.1, p.2))
        | none => none
      | [] => none
    | c :: rest =>
      if c.toNat < 32 then none
      else (parseJsonString fuel rest).map (fun p => (c :: p.1, p.2))

/-- Lex a JSON number (`-? int frac? exp?`), returning the lexeme and the
rest of the input. -/
def parseNumberLex (l : Str) : Option (Str × Str) :=
  let signSplit : Str × Str :=
    match l with
    | '-' :: r => (['-'], r)
    | _ => ([], l)
  let sign := signSplit.1
  let l1 := signSplit.2
  match l1 with
  | [] => none
  | c :: r =>
    if c == '0' ∨ ¬ c.isDigit then
      if c == '0' then
        someTail sign ['0'] r
      else none
    else
      let ds := (c :: r).takeWhile Char.isDigit
      someTail sign ds ((c :: r).drop ds.length)
where
  /-- Continue after the integer part: optional fraction, optional
  exponent. -/
  someTail (sign intPart : Str) (rest : Str) : Option (Str × Str) :=
    let fracSplit : Option (Str × Str) :=
      match rest with
      | '.' :: r2 =>
        let ds := r2.takeWhile Char.isDigit
        if ds.isEmpty then none else some ('.' :: ds, r2.drop ds.length)
      | _ => some ([], rest)
    match fracSplit with
    | none => none
    | some (fracPart, rest2) =>
      let expSplit : Option (Str × Str) :=
        match rest2 with
        | c :: r3 =>
          if c == 'e' ∨ c == 'E' then
            let signedR3 : Str × Str :=
              match r3 with
              | s :: r4 => if s == '+' ∨ s == '-' then ([s], r4) else ([], r3)
              | [] => ([], r3)
            let ds := signedR3.2.takeWhile Char.isDigit
            if ds.isEmpty then none
            else some (c :: (signedR3.1 ++ ds), signedR3.2.drop ds.length)
          else some ([], rest2)
        | [] => some ([], rest2)
      match expSplit with
      | none => none
      | some (expPart, rest3) =>
        some (sign ++ intPart ++ fracPart ++ expPart, rest3)

mutual

/-- Parse a JSON value (after skipping whitespace); fuel-indexed. -/
def parseValue : Nat → Str → Option (Json × Str)
  | 0, _ => none
  | fuel + 1, l =>
    match skipJsonWs l with
    | [] => none
    | c :: rest =>
      if c == '{' then
        match skipJsonWs rest with
        | '}' :: r => some (.obj [], r)
        | _ => parseMembers fuel rest []
      else if c == '[' then
        match skipJsonWs rest with
        | ']' :: r => some (.arr [], r)
        | _ => parseElements fuel rest []
      else if c == '"' then
        match parseJsonString (rest.length + 1) rest with
        | some (s, r) => some (.str s, r)
        | none => none
      else if c == 't' then
        if strHasPref "rue".data rest then some (.bool true, rest.drop 3)
        else none
      else if c == 'f' then
        if strHasPref "alse".data rest then some (.bool false, rest.drop 4)
        else none
      else if c == 'n' then
        if strHasPref "ull".data rest then some (.null, rest.drop 3)
        else none
      else if c == '-' || c.isDigit then
        match parseNumberLex (c :: rest) with
        | some (lex, r) => some (.num lex, r)
        | none => none
      else none

/-- Parse the members of a JSON object after the opening brace (non-empty
object case). -/
def parseMembers : Nat → Str → List (Str × Json) → Option (Json × Str)
  | 0, _, _ => none
  | fuel + 1, l, acc =>
    match skipJsonWs l with
    | '"' :: rest =>
      match parseJsonString (rest.length + 1) rest with
      | some (key, r1) =>
        match skipJsonWs r1 with
        | ':' :: r2 =>
          match parseValue fuel r2 with
          | some (v, r3) =>
            match skipJsonWs r3 with
            | ',' :: r4 => parseMembers fuel r4 (acc ++ [(key, v)])
            | '}' :: r4 => some (.obj (acc ++ [(key, v)]), r4)
            | _ => none
          | none => none
        | _ => none
      | none => none
    | _ => none

/-- Parse the elements of a JSON array after the opening bracket (non-empty
array case). -/
def parseElements : Nat → Str → List Json → Option (Json × Str)
  | 0, _, _ => none
  | fuel + 1, l, acc =>
    match parseValue fuel l with
    | some (v, r1) =>
      match skipJsonWs r1 with
      | ',' :: r2 => parseElements fuel r2 (acc ++ [v])
      | ']' :: r2 => some (.arr (acc ++ [v]), r2)
      | _ => none
    | none => none

end

/-- `JSON.parse`: trim the `ws value ws` wrapping and parse exactly one
value.  The fuel `2·|t| + 2` dominates the parser's fuel use (at least one
character is consumed per two units of fuel), so it never cuts a parse
short. -/
def jsonParse (l : Str) : Option Json :=
  let t := trimWs l
  match parseValue (2 * t.length + 2) t with
  | some (v, rest) => if skipJsonWs rest = [] then some v else none
  | none => none

/-! ## Minutes-response parsing (`src/services/openaiService.ts`) -/

/-- The 7-character fence marker of the first stripping branch. -/
def patJson : Str := ['\x60', '\x60', '\x60', 'j', 's', 'o', 'n']

/-- The 3-character fence marker. -/
def patTicks : Str := ['\x60', '\x60', '\x60']

/-- `jsonString.replace(/```json\n?/g, '')`: scan left to right; at each
occurrence of the 7-character marker drop it together with one directly
following newline, otherwise keep the character.  Fuel-indexed (any fuel
above the length is exact). -/
def replJsonFenceF : Nat → Str → Str
  | 0, l => l
  | _ + 1, [] => []
  | fuel + 1, c :: rest =>
    if strHasPref patJson (c :: rest) then
      match (c :: rest).drop 7 with
      | '\n' :: r2 => replJsonFenceF fuel r2
      | r => replJsonFenceF fuel r
    else c :: replJsonFenceF fuel rest

/-- `jsonString.replace(/```json\n?/g, '')`. -/
def replJsonFence (l : Str) : Str := replJsonFenceF (l.length + 1) l

/-- `jsonString.replace(/```\n?/g, '')`: same scan for the bare marker. -/
def replFenceF : Nat → Str → Str
  | 0, l => l
  | _ + 1, [] => []
  | fuel + 1, c :: rest =>
    if strHasPref patTicks (c :: rest) then
      match (c :: rest).drop 3 with
      | '\n' :: r2 => replFenceF fuel r2
      | r => replFenceF fuel r
    else c :: replFenceF fuel rest

/-- `jsonString.replace(/```\n?/g, '')`. -/
def replFence (l : Str) : Str := replFenceF (l.length + 1) l

/-- `jsonString.replace(/```\n?$/g, '')`: remove a final fence marker,
together with a directly following newline at the end of the string. -/
def stripFenceEnd (l : Str) : Str :=
  if strHasPref ('\n' :: patTicks) l.reverse then (l.reverse.drop 4).reverse
  else if strHasPref patTicks l.reverse then (l.reverse.drop 3).reverse
  else l

/-- The fence-stripping preamble of `parseMinutesResponse`:
trim, then strip ```json fences (with end marker) or bare ``` fences. -/
def stripFences (content : Str) : Str :=
  let jsonString := trimWs content
  if strHasPref patJson jsonString then stripFenceEnd (replJsonFence jsonString)
  else if strHasPref patTicks jsonString then replFence jsonString
  else jsonString

/-- JavaScript property access `parsed.k` on a *non-null* `JSON.parse`
result: on an object the most recently written duplicate key wins; on every
other non-null value (string, number, boolean, array) the access yields
`undefined` (`none`) — the keys read here are not `Object.prototype`
members.  Property access on `null` throws a TypeError instead; that path
is taken in `parseMinutesResponse`, whose null arm goes to the catch-block
fallback, so this function is only applied to non-null values. -/
def jsGet : Json → Str → Option Json
  | .obj fields, k =>
      ((fields.filter (fun p => p.1 == k)).getLast?).map (fun p => p.2)
  | _, _ => none

/-- Is the number lexeme's value zero (sign and exponent are irrelevant;
JSON numerals cannot denote NaN)? -/
def numIsZero (lex : Str) : Bool :=
  (lex.takeWhile (fun c => !(c == 'e') && !(c == 'E'))).all
    (fun c => !c.isDigit || c == '0')

/-- JavaScript falsiness of a JSON value (`undefined` is handled by
`jsOr`). -/
def jsFalsy : Json → Bool
  | .null => true
  | .bool b => !b
  | .str s => s.isEmpty
  | .num lex => numIsZero lex
  | _ => false

/-- `x || dflt` where `x` is an (possibly `undefined`) JSON value. -/
def jsOr (x : Option Json) (dflt : Json) : Json :=
  match x with
  | none => dflt
  | some v => if jsFalsy v then dflt else v

/-- Whitespace matched by `\s` in the participant regex (the lines it runs
on contain no line terminators, so the modelled subset suffices). -/
def isRegexWs (c : Char) : Bool :=
  [' ', '\t', '\x0c', '\x0b', '\r'].contains c

/-- The optional leading `(?:\[[\d:]+\])?` group: if the line starts with a
bracketed run of digits/colons, consume it. -/
def matchTs : Str → Option Str
  | '[' :: rest =>
    let ds := rest.takeWhile (fun c => c.isDigit || c == ':')
    if ds.isEmpty then none
    else
      match rest.drop ds.length with
      | ']' :: r => some r
      | _ => none
  | _ => none

/-- `\s*([^:]+):` with backtracking semantics: the capture runs from the end
of the longest whitespace prefix that still leaves one character before the
first colon, up to that colon; fails when there is no colon or the colon is
the first character. -/
def capAfterWs (s : Str) : Option Str :=
  let k := s.findIdx (fun c => c == ':')
  if k < s.length then
    if k = 0 then none
    else
      let w := min (s.takeWhile isRegexWs).length (k - 1)
      some ((s.drop w).take (k - w))
  else none

/-- One line against `/^(?:\[[\d:]+\])?\s*([^:]+):/`: first with the
optional timestamp group, then (regex backtracking) without it. -/
def extractLine (line : Str) : Option Str :=
  match matchTs line with
  | some s =>
    match capAfterWs s with
    | some cap => some cap
    | none => capAfterWs line
  | none => capAfterWs line

/-- `transcript.split('\n')` (keeps empty segments). -/
def splitOnNl : Str → List Str
  | [] => [[]]
  | '\n' :: rest => [] :: splitOnNl rest
  | c :: rest =>
    match splitOnNl rest with
    | [] => [[c]]
    | s :: ss => (c :: s) :: ss

/-- JavaScript `Set` insertion-order deduplication
(`Array.from(new Set(...))`). -/
def dedupKeep (seen : List Str) : List Str → List Str
  | [] => []
  | x :: rest =>
    if seen.contains x then dedupKeep seen rest
    else x :: dedupKeep (x :: seen) rest

/-- `extractParticipants`: per line, match the leading `Name:` pattern
(optionally after a bracketed timestamp), trim the capture, keep it when it
is longer than 2 characters and not purely numeric, and deduplicate. -/
def extractParticipants (transcript : Str) : List Str :=
  let names := (splitOnNl transcript).filterMap (fun line =>
    match extractLine line with
    | some cap =>
      let name := trimWs cap
      if name.length > 2 && !(name.all Char.isDigit) then some name else none
    | none => none)
  dedupKeep [] names

/-- `MeetingMinutes` as built by `parseMinutesResponse`.  The JSON-sourced
fields keep their runtime `Json` type (TypeScript does not check the parsed
payload); `date`/`generatedAt` take the clock reading `now` passed as an
explicit collaborator; the fallback document omits `nextSteps`
(`Option.none`). -/
structure MeetingMinutes where
  meetingId : Str
  title : Json
  date : Str
  participants : List Str
  summary : Json
  keyPoints : Json
  actionItems : Json
  decisions : Json
  nextSteps : Option Json
  generatedAt : Str

/-- The single catch-block fallback document of `parseMinutesResponse`: it
is reached both when `JSON.parse` throws (invalid JSON) and when the parsed
value is `null` and `parsed.title` throws a TypeError; its `summary` embeds
the raw response. -/
def minutesFallback (content meetingId now : Str) : MeetingMinutes :=
  { meetingId := meetingId
    title := .str "Error al procesar acta".data
    date := now
    participants := []
    summary := .str ("Error al generar el acta automáticamente. Respuesta: ".data
      ++ content)
    keyPoints := .arr []
    actionItems := .arr []
    decisions := .arr []
    nextSteps := none
    generatedAt := now }

/-- `parseMinutesResponse(content, meetingId, originalTranscript)`: strip
markdown fences, `JSON.parse`; on success map fields with `||`-defaults.
The catch block produces `minutesFallback` in two cases: `JSON.parse`
throws (invalid JSON), or the parsed value is `null`, where the member
access `parsed.title` throws a TypeError that the same catch absorbs. -/
def parseMinutesResponse (content meetingId originalTranscript now : Str) :
    MeetingMinutes :=
  let jsonString := stripFences content
  match jsonParse jsonString with
  | some Json.null => minutesFallback content meetingId now
  | some parsed =>
    { meetingId := meetingId
      title := jsOr (jsGet parsed "title".data) (.str "Reunión sin título".data)
      date := now
      participants := extractParticipants originalTranscript
      summary := jsOr (jsGet parsed "summary".data) (.str [])
      keyPoints := jsOr (jsGet parsed "keyPoints".data) (.arr [])
      actionItems := jsOr (jsGet parsed "actionItems".data) (.arr [])
      decisions := jsOr (jsGet parsed "decisions".data) (.arr [])
      nextSteps := some (jsOr (jsGet parsed "nextSteps".data) (.arr []))
      generatedAt := now }
  | none => minutesFallback content meetingId now

/-! ## `generateSummary` (`src/services/openaiService.ts`) -/

/-- A chat-completion message as read back from the client
(`message?.content` — both levels can be absent/null). -/
structure MessageM where
  content : Option Str
deriving DecidableEq, Repr

/-- One completion choice. -/
structure Choice where
  message : Option MessageM
deriving DecidableEq, Repr

/-- The generation collaborator's response (`response.choices`). -/
structure ChatResponse where
  choices : List Choice
deriving DecidableEq, Repr

/-- `max_tokens: Math.ceil(maxLength * 1.5)`. -/
def generateSummaryMaxTokens (maxLength : Nat) : Nat := (3 * maxLength + 1) / 2

/-- `generateSummary(text, maxLength)`: returns the `max_tokens` budget sent
to the collaborator together with the outcome.  A client failure is wrapped
as an `OpenAIError`; with an empty `choices` array, `choices[0].message`
throws a `TypeError` which the `catch` block also wraps as an `OpenAIError`;
with a choice whose content is absent/null/empty, `|| ''` yields the empty
string. -/
def generateSummary (resp : Except Str ChatResponse) (maxLength : Nat) :
    Nat × Except BotError Str :=
  (generateSummaryMaxTokens maxLength,
   match resp with
   | .error e => .error (.openai ("Failed to generate summary: ".data ++ e))
   | .ok r =>
     match r.choices with
     | [] => .error (.openai "Failed to generate summary: TypeError".data)
     | c :: _ =>
       .ok (match c.message.bind (fun mm => mm.content) with
            | none => []
            | some s => if s.isEmpty then [] else s))

/-- Claim C8 (counterexample): when the collaborator yields *no choices*,
`generateSummary` does not return the empty string — the member access
`response.choices[0].message` throws, and the `catch` block re-raises an
`OpenAIError`. -/
theorem generateSummary_no_choices_counterexample :
    (generateSummary (.ok ⟨[]⟩) 200).2 ≠ .ok [] ∧
    (∃ msg, (generateSummary (.ok ⟨[]⟩) 200).2 = .error (.openai msg)) := by
  exact ⟨fun h => by simp [generateSummary] at h,
    ⟨"Failed to generate summary: TypeError".data, rfl⟩⟩

/-- Claim C8 (amended): when the collaborator returns at least one choice
whose content is absent/null/empty, `generateSummary` returns the empty
string with an output-token budget of `⌈1.5 · maxWords⌉`; when it returns
*no* choices the call raises a generation error instead; the budget is
proportional to `maxWords` (between `1.5·maxWords` and `1.5·maxWords + ½`). -/
theorem generateSummary_empty_content (maxLength : Nat) (msg : Option MessageM)
    (rest : List Choice)
    (h : msg.bind (fun mm => mm.content) = none ∨
         msg.bind (fun mm => mm.content) = some []) :
    generateSummary (.ok ⟨⟨msg⟩ :: rest⟩) maxLength =
      ((3 * maxLength + 1) / 2, .ok []) ∧
    (∃ m, (generateSummary (.ok (⟨[]⟩ : ChatResponse)) maxLength).2 =
      .error (.openai m)) ∧
    3 * maxLength ≤ 2 * generateSummaryMaxTokens maxLength ∧
    2 * generateSummaryMaxTokens maxLength ≤ 3 * maxLength + 1 := by
  refine ⟨?_, ⟨"Failed to generate summary: TypeError".data, rfl⟩, ?_, ?_⟩
  · rcases h with h | h <;>
      simp [generateSummary, generateSummaryMaxTokens, h, List.isEmpty]
  · simp [generateSummaryMaxTokens]; omega
  · simp [generateSummaryMaxTokens]; omega

/-- Witness for the amended claim C8: a single choice carrying `null`
content at `maxWords = 200` yields the empty string and a budget of 300. -/
theorem generateSummary_empty_content_witness :
    ((none : Option MessageM).bind (fun mm => mm.content) = none ∨
     (none : Option MessageM).bind (fun mm => mm.content) = some []) ∧
    (generateSummary (.ok ⟨⟨none⟩ :: []⟩) 200 = ((3 * 200 + 1) / 2, .ok []) ∧
     (∃ m, (generateSummary (.ok (⟨[]⟩ : ChatResponse)) 200).2 =
       .error (.openai m)) ∧
     3 * 200 ≤ 2 * generateSummaryMaxTokens 200 ∧
     2 * generateSummaryMaxTokens 200 ≤ 3 * 200 + 1) :=
  ⟨Or.inl rfl, generateSummary_empty_content 200 none [] (Or.inl rfl)⟩

/-- Claim C3: whenever the fence-stripped collaborator response is not
valid JSON, `parseMinutesResponse` does not raise (it is a total function
returning the fallback document): the summary embeds the raw response after
a fixed non-empty diagnostic prefix (hence is non-empty), and the
`keyPoints`, `decisions` and `actionItems` lists are all empty. -/
theorem minutes_parse_failure_returns_fallback
    (content meetingId transcript now : Str)
    (hfail : jsonParse (stripFences content) = none) :
    (parseMinutesResponse content meetingId transcript now).summary =
      .str ("Error al generar el acta automáticamente. Respuesta: ".data
        ++ content) ∧
    ("Error al generar el acta automáticamente. Respuesta: ".data
        ++ content) ≠ [] ∧
    (parseMinutesResponse content meetingId transcript now).keyPoints =
      .arr [] ∧
    (parseMinutesResponse content meetingId transcript now).decisions =
      .arr [] ∧
    (parseMinutesResponse content meetingId transcript now).actionItems =
      .arr [] := by
  refine ⟨?_, by simp, ?_, ?_, ?_⟩ <;>
    simp [parseMinutesResponse, minutesFallback, hfail]

/-- Witness for claim C3: a concrete non-JSON response. -/
theorem minutes_parse_failure_returns_fallback_witness :
    jsonParse (stripFences "not json at all".data) = none ∧
    (parseMinutesResponse "not json at all".data "m1".data "t".data
      "2024-01-01".data).summary =
      .str ("Error al generar el acta automáticamente. Respuesta: ".data
        ++ "not json at all".data) ∧
    (parseMinutesResponse "not json at all".data "m1".data "t".data
      "2024-01-01".data).keyPoints = .arr [] :=
  ⟨rfl,
   (minutes_parse_failure_returns_fallback "not json at all".data "m1".data
     "t".data "2024-01-01".data rfl).1,
   (minutes_parse_failure_returns_fallback "not json at all".data "m1".data
     "t".data "2024-01-01".data rfl).2.2.1⟩

/-! ## Fence-stripping lemmas for claim C5 -/

theorem strHasPref_append_self (p x : Str) : strHasPref p (p ++ x) = true := by
  induction p with
  | nil => rfl
  | cons a p ih => simp [strHasPref, ih]

theorem strHasPref_cons_decomp (a : Char) (p l : Str)
    (h : strHasPref (a :: p) l = true) : ∃ r, l = a :: r := by
  match l with
  | [] => simp [strHasPref] at h
  | b :: r =>
    simp only [strHasPref, Bool.and_eq_true, beq_iff_eq] at h
    exact ⟨r, by rw [h.1]⟩

theorem strHasPref_append_newline (l : Str) :
    ∀ (p t : Str), '\n' ∉ p → strHasPref p l = false →
      strHasPref p (l ++ '\n' :: t) = false := by
  induction l with
  | nil =>
    intro p t hnl h
    match p with
    | [] => simp [strHasPref] at h
    | a :: p' =>
      have ha : (a == '\n') = false :=
        beq_eq_false_iff_ne.mpr (fun hh => hnl (by simp [hh]))
      simp [strHasPref, ha]
  | cons b l ih =>
    intro p t hnl h
    match p with
    | [] => simp [strHasPref] at h
    | a :: p' =>
      by_cases hab : (a == b) = true
      · have hp' : strHasPref p' l = false := by
          simpa [strHasPref, hab] using h
        have hnl' : '\n' ∉ p' := fun hh => hnl (List.mem_cons_of_mem a hh)
        simp [strHasPref, hab, ih p' t hnl' hp']
      · have hab' : (a == b) = false := by
          simpa using hab
        simp [strHasPref, hab']

theorem strHasSub_append_fence (l : Str)
    (h : strHasSub patJson l = false) :
    strHasSub patJson (l ++ '\n' :: patTicks) = false := by
  induction l with
  | nil => decide
  | cons c l ih =>
    simp only [strHasSub, Bool.or_eq_false_iff] at h
    have hp := strHasPref_append_newline (c :: l) patJson patTicks
      (by decide) h.1
    simp only [List.cons_append] at hp
    simp [strHasSub, hp, ih h.2]

theorem replJsonFenceF_id : ∀ (fuel : Nat) (l : Str), l.length < fuel →
    strHasSub patJson l = false → replJsonFenceF fuel l = l := by
  intro fuel
  induction fuel with
  | zero => intro l h; omega
  | succ f ih =>
    intro l hlen hsub
    match l with
    | [] => rfl
    | c :: rest =>
      simp only [strHasSub, Bool.or_eq_false_iff] at hsub
      have hlen' : rest.length < f := by
        simp only [List.length_cons] at hlen; omega
      simp [replJsonFenceF, hsub.1, ih rest hlen' hsub.2]

theorem replJsonFence_strip (j : Str) (hsub : strHasSub patJson j = false) :
    replJsonFence (patJson ++ '\n' :: (j ++ '\n' :: patTicks)) =
      j ++ '\n' :: patTicks := by
  have hlen : (patJson ++ '\n' :: (j ++ '\n' :: patTicks)).length =
      j.length + 12 := by
    simp [patJson, patTicks]
  have hstep :
      replJsonFenceF (j.length + 12 + 1)
        (patJson ++ '\n' :: (j ++ '\n' :: patTicks)) =
      replJsonFenceF (j.length + 12) (j ++ '\n' :: patTicks) := rfl
  have hid : replJsonFenceF (j.length + 12) (j ++ '\n' :: patTicks) =
      j ++ '\n' :: patTicks := by
    apply replJsonFenceF_id
    · simp [patTicks] <;> omega
    · exact strHasSub_append_fence j hsub
  show replJsonFenceF
      ((patJson ++ '\n' :: (j ++ '\n' :: patTicks)).length + 1)
      (patJson ++ '\n' :: (j ++ '\n' :: patTicks)) = j ++ '\n' :: patTicks
  rw [hlen, hstep, hid]

theorem stripFenceEnd_append (j : Str) :
    stripFenceEnd (j ++ '\n' :: patTicks) = j ++ ['\n'] := by
  have hrev : (j ++ '\n' :: patTicks).reverse =
      '\x60' :: '\x60' :: '\x60' :: '\n' :: j.reverse := by
    simp [patTicks, List.reverse_append]
  have h1 : strHasPref ('\n' :: patTicks)
      ('\x60' :: '\x60' :: '\x60' :: '\n' :: j.reverse) = false := rfl
  have h2 : strHasPref patTicks
      ('\x60' :: '\x60' :: '\x60' :: '\n' :: j.reverse) = true := rfl
  simp only [stripFenceEnd, hrev, h1, h2, Bool.false_eq_true, if_false,
    if_true, List.drop_succ_cons, List.drop_zero]
  simp

/-! ## Trim lemmas -/

theorem dropWhile_dropWhile (p : Char → Bool) (l : Str) :
    List.dropWhile p (List.dropWhile p l) = List.dropWhile p l := by
  induction l with
  | nil => rfl
  | cons a l ih =>
    by_cases h : p a
    · simpa [List.dropWhile_cons, h] using ih
    · simp [List.dropWhile_cons, h]

theorem dropWhile_length_le (p : Char → Bool) (l : Str) :
    (List.dropWhile p l).length ≤ l.length := by
  induction l with
  | nil => simp
  | cons a l ih =>
    by_cases h : p a
    · simp only [List.dropWhile_cons, if_pos h, List.length_cons]
      omega
    · simp [List.dropWhile_cons, if_neg h]

theorem head_false_of_dropWhile_fix (p : Char → Bool) (a : Char) (l : Str)
    (h : List.dropWhile p (a :: l) = a :: l) : p a = false := by
  by_contra hb
  simp only [Bool.not_eq_false] at hb
  rw [List.dropWhile_cons, if_pos hb] at h
  have hlen := congrArg List.length h
  have hle := dropWhile_length_le p l
  simp only [List.length_cons] at hlen
  omega

theorem trimEnd_append_nl (l : Str) : trimEnd (l ++ ['\n']) = trimEnd l := by
  have hws : isJsonWs '\n' = true := rfl
  simp [trimEnd, List.reverse_append, List.dropWhile_cons, hws]

theorem trimWs_append_nl (l : Str) : trimWs (l ++ ['\n']) = trimWs l := by
  simp [trimWs, trimEnd_append_nl]

theorem trimEnd_trimStart_trimEnd (l : Str) :
    trimEnd (trimStart (trimEnd l)) = trimStart (trimEnd l) := by
  have hrrev : (trimEnd l).reverse = List.dropWhile isJsonWs l.reverse := by
    simp [trimEnd]
  have hr : List.dropWhile isJsonWs (trimEnd l).reverse =
      (trimEnd l).reverse := by
    rw [hrrev]; exact dropWhile_dropWhile _ _
  have hsplit : List.takeWhile isJsonWs (trimEnd l) ++
      trimStart (trimEnd l) = trimEnd l := by
    simpa [trimStart] using
      List.takeWhile_append_dropWhile isJsonWs (trimEnd l)
  rcases hrev : (trimStart (trimEnd l)).reverse with _ | ⟨c, ts⟩
  · have hs : trimStart (trimEnd l) = [] := by
      have := congrArg List.reverse hrev
      simpa using this
    rw [hs]; rfl
  · have hrrev2 : (trimEnd l).reverse =
        c :: (ts ++ (List.takeWhile isJsonWs (trimEnd l)).reverse) := by
      conv_lhs => rw [← hsplit]
      simp [List.reverse_append, hrev]
    have hr' := hr
    rw [hrrev2] at hr'
    have hc : isJsonWs c = false := head_false_of_dropWhile_fix _ _ _ hr'
    have hs : trimStart (trimEnd l) = (c :: ts).reverse := by
      have := congrArg List.reverse hrev
      simpa using this
    show (List.dropWhile isJsonWs (trimStart (trimEnd l)).reverse).reverse =
      trimStart (trimEnd l)
    rw [hrev, List.dropWhile_cons, if_neg (by simp [hc])]
    exact hs.symm

theorem trimWs_idem (l : Str) : trimWs (trimWs l) = trimWs l := by
  show trimStart (trimEnd (trimStart (trimEnd l))) = trimStart (trimEnd l)
  rw [trimEnd_trimStart_trimEnd]
  exact dropWhile_dropWhile isJsonWs (trimEnd l)

theorem trimStart_cons_of_not_ws (c : Char) (l : Str)
    (h : isJsonWs c = false) : trimStart (c :: l) = c :: l := by
  simp [trimStart, List.dropWhile_cons, h]

theorem trimEnd_append_of_not_ws (l : Str) (c : Char)
    (h : isJsonWs c = false) : trimEnd (l ++ [c]) = l ++ [c] := by
  simp [trimEnd, List.reverse_append, List.dropWhile_cons, h]

theorem trimWs_eq_self (c d : Char) (mid : Str) (hc : isJsonWs c = false)
    (hd : isJsonWs d = false) :
    trimWs (c :: (mid ++ [d])) = c :: (mid ++ [d]) := by
  have h1 : trimEnd (c :: (mid ++ [d])) = c :: (mid ++ [d]) := by
    have hre : c :: (mid ++ [d]) = (c :: mid) ++ [d] := by simp
    rw [hre, trimEnd_append_of_not_ws _ _ hd]
  show trimStart (trimEnd (c :: (mid ++ [d]))) = c :: (mid ++ [d])
  rw [h1, trimStart_cons_of_not_ws _ _ hc]

/-! ## `JSON.parse` never accepts a backtick-headed document -/

theorem parseValue_backtick (f : Nat) (r : Str) :
    parseValue f ('\x60' :: r) = none := by
  cases f with
  | zero => rfl
  | succ f => rfl

theorem jsonParse_not_backtick (j : Str) (v : Json)
    (h : jsonParse j = some v) :
    strHasPref patJson (trimWs j) = false ∧
    strHasPref patTicks (trimWs j) = false := by
  constructor
  · by_contra hb
    simp only [Bool.not_eq_false] at hb
    simp only [patJson] at hb
    obtain ⟨r, hr⟩ := strHasPref_cons_decomp _ _ _ hb
    have hnone : jsonParse j = none := by
      simp [jsonParse, hr, parseValue_backtick]
    rw [hnone] at h
    cases h
  · by_contra hb
    simp only [Bool.not_eq_false] at hb
    simp only [patTicks] at hb
    obtain ⟨r, hr⟩ := strHasPref_cons_decomp _ _ _ hb
    have hnone : jsonParse j = none := by
      simp [jsonParse, hr, parseValue_backtick]
    rw [hnone] at h
    cases h

/-- Why the amended claim C5 must exclude the JSON text "null": member
access on the parsed `null` throws a TypeError, so both the fenced and the
unfenced call take the catch-block fallback — and the fallbacks embed the
two *different* raw responses. -/
theorem minutes_null_fallbacks_differ :
    (parseMinutesResponse ("```json\n".data ++ "null".data ++ "\n```".data)
      "m".data "t".data "T".data).summary =
      .str ("Error al generar el acta automáticamente. Respuesta: ```json\nnull\n```".data) ∧
    (parseMinutesResponse "null".data "m".data "t".data "T".data).summary =
      .str ("Error al generar el acta automáticamente. Respuesta: null".data) :=
  ⟨rfl, rfl⟩

/-- Claim C5 (amended): for every JSON text `j` that does not itself contain
the 7-character fence marker and whose value is not `null`, the response
"```json\n" ++ j ++ "\n```" parses to the same MinutesDocument as `j`
unfenced (generation timestamps are equal because the clock reading `now` is
the same).  Both restrictions are necessary: the stripping regex is
*global*, so a marker inside `j` is deleted too (see the counterexample);
and for `j` = "null" the member access `parsed.title` throws, so fenced and
unfenced calls both fall back to documents embedding their *different* raw
responses. -/
theorem minutes_fenced_eq_unfenced (j meetingId transcript now : Str)
    (v : Json) (hparse : jsonParse j = some v)
    (hnofence : strHasSub patJson j = false)
    (hnotnull : v ≠ Json.null) :
    parseMinutesResponse ("```json\n".data ++ j ++ "\n```".data)
        meetingId transcript now =
      parseMinutesResponse j meetingId transcript now := by
  have hform : "```json\n".data ++ j ++ "\n```".data =
      patJson ++ '\n' :: (j ++ '\n' :: patTicks) := by
    have e1 : "```json\n".data = patJson ++ ['\n'] := rfl
    have e2 : "\n```".data = '\n' :: patTicks := rfl
    rw [e1, e2]
    simp [List.append_assoc]
  rw [hform]
  have htrim : trimWs (patJson ++ '\n' :: (j ++ '\n' :: patTicks)) =
      patJson ++ '\n' :: (j ++ '\n' :: patTicks) := by
    have hre : patJson ++ '\n' :: (j ++ '\n' :: patTicks) =
        '\x60' :: (('\x60' :: '\x60' :: 'j' :: 's' :: 'o' :: 'n' :: '\n' ::
          (j ++ '\n' :: ['\x60', '\x60'])) ++ ['\x60']) := by
      simp [patJson, patTicks]
    rw [hre, trimWs_eq_self '\x60' '\x60' _ rfl rfl]
  have hpref : strHasPref patJson
      (patJson ++ '\n' :: (j ++ '\n' :: patTicks)) = true :=
    strHasPref_append_self _ _
  have hstrip : stripFences (patJson ++ '\n' :: (j ++ '\n' :: patTicks)) =
      j ++ ['\n'] := by
    simp only [stripFences, htrim, hpref, if_true]
    rw [replJsonFence_strip j hnofence, stripFenceEnd_append]
  have hjson2 : jsonParse (j ++ ['\n']) = some v := by
    simp only [jsonParse] at hparse ⊢
    rw [trimWs_append_nl]
    exact hparse
  have hb := jsonParse_not_backtick j v hparse
  have hunf : stripFences j = trimWs j := by
    simp [stripFences, hb.1, hb.2]
  have hjson3 : jsonParse (trimWs j) = some v := by
    simp only [jsonParse] at hparse ⊢
    rw [trimWs_idem]
    exact hparse
  simp only [parseMinutesResponse, hstrip, hjson2, hunf, hjson3]

/-- Witness for the amended claim C5 at a concrete marker-free, non-null
JSON object. -/
theorem minutes_fenced_eq_unfenced_witness :
    jsonParse "\x7b\"title\":\"T1\"\x7d".data =
      some (.obj [("title".data, .str "T1".data)]) ∧
    strHasSub patJson "\x7b\"title\":\"T1\"\x7d".data = false ∧
    (Json.obj [("title".data, .str "T1".data)] ≠ Json.null) ∧
    parseMinutesResponse
        ("```json\n".data ++ "\x7b\"title\":\"T1\"\x7d".data ++ "\n```".data)
        "m".data "t".data "T".data =
      parseMinutesResponse "\x7b\"title\":\"T1\"\x7d".data
        "m".data "t".data "T".data :=
  ⟨rfl, by decide, fun h => Json.noConfusion h,
   minutes_fenced_eq_unfenced "\x7b\"title\":\"T1\"\x7d".data
     "m".data "t".data "T".data _ rfl (by decide)
     (fun h => Json.noConfusion h)⟩

/-- Claim C5 (counterexample): the claim as stated fails for a JSON text
containing the fence marker inside a string literal: `j` =
`{"title":"```json x"}` is valid JSON, but the global replace deletes the
inner marker, so the fenced response parses to a document titled " x" while
the unfenced one is titled "```json x". -/
theorem minutes_fencing_counterexample :
    jsonParse "\x7b\"title\":\"```json x\"\x7d".data =
      some (.obj [("title".data, .str "```json x".data)]) ∧
    (parseMinutesResponse
        ("```json\n".data ++ "\x7b\"title\":\"```json x\"\x7d".data
          ++ "\n```".data) "m".data "t".data "T".data).title =
      .str " x".data ∧
    (parseMinutesResponse "\x7b\"title\":\"```json x\"\x7d".data
        "m".data "t".data "T".data).title = .str "```json x".data ∧
    (Json.str " x".data ≠ Json.str "```json x".data) := by
  refine ⟨rfl, rfl, rfl, ?_⟩
  intro h
  injection h with h'
  exact absurd h' (by decide)

/-! ## Caption-track parser (`src/services/vttParser.ts`) -/

/-- A decoded cue (`VTTCue` in the source): offsets in fractional seconds. -/
structure VTTCue where
  start : ℚ
  end_ : ℚ
  text : Str
  identifier : Option Str
deriving DecidableEq, Repr

/-- Modelled from the spec: the decode step is performed by the external
`node-webvtt` library (not part of this repository); per spec §3 a decoded
Cue has non-negative offsets with `end ≥ start`, which is what the
library's timestamp grammar and validation produce on a successful parse. -/
def WellFormedCue (c : VTTCue) : Prop := 0 ≤ c.start ∧ c.start ≤ c.end_

/-- The `ParsedVTT` result. -/
structure ParsedVTT where
  cues : List VTTCue
  fullTranscript : Str
  duration : ℚ
  speakers : List Str

/-- Whitespace matched by `\s` in the tag/whitespace-normalising regexes. -/
def isJsWsF (c : Char) : Bool :=
  [' ', '\t', '\n', '\r', '\x0c', '\x0b'].contains c

/-- `.replace(/<[^>]*>/g, '')`: drop each `<...>` run (a `<` with no later
`>` is kept).  Fuel-indexed; any fuel above the length is exact. -/
def removeTagsF : Nat → Str → Str
  | 0, l => l
  | _ + 1, [] => []
  | fuel + 1, c :: rest =>
    if c == '<' then
      if rest.contains '>' then
        removeTagsF fuel
          (rest.drop ((rest.takeWhile (fun d => !(d == '>'))).length + 1))
      else c :: removeTagsF fuel rest
    else c :: removeTagsF fuel rest

/-- `.replace(/<[^>]*>/g, '')`. -/
def removeTags (l : Str) : Str := removeTagsF (l.length + 1) l

/-- `.replace(/\s+/g, ' ')`: collapse whitespace runs to single spaces. -/
def collapseWsF : Nat → Str → Str
  | 0, l => l
  | _ + 1, [] => []
  | fuel + 1, c :: rest =>
    if isJsWsF c then ' ' :: collapseWsF fuel (rest.dropWhile isJsWsF)
    else c :: collapseWsF fuel rest

/-- `.replace(/\s+/g, ' ')`. -/
def collapseWs (l : Str) : Str := collapseWsF (l.length + 1) l

/-- `Array.prototype.join(' ')`. -/
def joinSpace : List Str → Str
  | [] => []
  | [x] => x
  | x :: xs => x ++ ' ' :: joinSpace xs

/-- The `/^([^:]+):/` speaker heuristic on one cue text: the trimmed run
before the first colon, when the colon exists and is not first. -/
def speakerOf (text : Str) : Option Str :=
  let k := text.findIdx (fun c => c == ':')
  if k < text.length then
    if k = 0 then none else some (trimWs (text.take k))
  else none

/-- `VTTParser.parse` applied to the decoded cue sequence: full transcript
(tags stripped, whitespace collapsed, trimmed), duration (end offset of the
last cue, `0` when empty), and the deduplicated speaker labels
(`filter(Boolean)` drops empty captures). -/
def VTTParser.parse (cues : List VTTCue) : ParsedVTT :=
  { cues := cues
    fullTranscript :=
      trimWs (collapseWs (removeTags (joinSpace (cues.map (fun c => c.text)))))
    duration :=
      match cues.getLast? with
      | some c => c.end_
      | none => 0
    speakers :=
      dedupKeep []
        (((cues.filterMap (fun c => speakerOf c.text))).filter
          (fun s => !s.isEmpty)) }

/-- Claim C6: for every successfully decoded cue sequence (all cues
well-formed per the caption-track grammar), the `ParsedVTT` duration equals
the end offset of the last cue when the sequence is non-empty, equals `0`
when it is empty, and is never negative. -/
theorem parse_duration_last_cue (cues : List VTTCue)
    (h : ∀ c ∈ cues, WellFormedCue c) :
    (∀ c, cues.getLast? = some c →
      (VTTParser.parse cues).duration = c.end_) ∧
    (cues = [] → (VTTParser.parse cues).duration = 0) ∧
    0 ≤ (VTTParser.parse cues).duration := by
  refine ⟨?_, ?_, ?_⟩
  · intro c hc
    simp [VTTParser.parse, hc]
  · intro hnil
    subst hnil
    rfl
  · cases hl : cues.getLast? with
    | none => simp [VTTParser.parse, hl]
    | some c =>
      obtain ⟨hne, hc2⟩ := List.mem_getLast?_eq_getLast (Option.mem_def.mpr hl)
      have hmem : c ∈ cues := hc2 ▸ List.getLast_mem hne
      have hwf := h c hmem
      have : (0 : ℚ) ≤ c.end_ := le_trans hwf.1 hwf.2
      simpa [VTTParser.parse, hl] using this

/-- Witness for claim C6 at a concrete two-cue document. -/
theorem parse_duration_last_cue_witness :
    (∀ c ∈ [⟨0, 3, "Alice: hi".data, none⟩,
            (⟨3, 7, "Bob: hey".data, none⟩ : VTTCue)], WellFormedCue c) ∧
    (VTTParser.parse [⟨0, 3, "Alice: hi".data, none⟩,
      ⟨3, 7, "Bob: hey".data, none⟩]).duration = 7 ∧
    (0 : ℚ) ≤ (VTTParser.parse [⟨0, 3, "Alice: hi".data, none⟩,
      ⟨3, 7, "Bob: hey".data, none⟩]).duration := by
  have h : ∀ c ∈ [(⟨0, 3, "Alice: hi".data, none⟩ : VTTCue),
      ⟨3, 7, "Bob: hey".data, none⟩], WellFormedCue c := by
    intro c hc
    simp only [List.mem_cons, List.not_mem_nil, or_false] at hc
    rcases hc with hc | hc <;> subst hc <;>
      exact ⟨by norm_num, by norm_num⟩
  have hmain := parse_duration_last_cue _ h
  exact ⟨h, hmain.1 _ rfl, hmain.2.2⟩

/-! ## Join-URL validation (`isValidTeamsUrl`, call service) -/

/-- The parts of a parsed URL the validator reads. -/
structure URLRec where
  hostname : Str
  pathname : Str
deriving DecidableEq, Repr

/-- Characters allowed in a URL scheme. -/
def isSchemeChar (c : Char) : Bool :=
  c.isAlpha || c.isDigit || c == '+' || c == '-' || c == '.'

/-- Split at the first occurrence of `pat`, returning the part before and
the part after the pattern. -/
def splitOnSub (pat : Str) : Str → Option (Str × Str)
  | [] => if pat.isEmpty then some ([], []) else none
  | c :: rest =>
    if strHasPref pat (c :: rest) then some ([], (c :: rest).drop pat.length)
    else
      match splitOnSub pat rest with
      | some (pre, post) => some (c :: pre, post)
      | none => none

/-- ASCII lower-casing (WHATWG hostnames are lower-cased). -/
def toLowerAscii (c : Char) : Char :=
  if 'A' ≤ c && c ≤ 'Z' then Char.ofNat (c.toNat + 32) else c

/-- The part of the authority after the last `@` (strips userinfo). -/
def afterLastAt (l : Str) : Str :=
  (l.reverse.takeWhile (fun c => !(c == '@'))).reverse

/-- Modelled from the spec: `new URL(joinUrl)` is the JavaScript runtime's
WHATWG parser (not repository code).  This models the fragment the
validator observes for `scheme://host[:port]/path?query#fragment` inputs:
`hostname` (userinfo/port stripped, ASCII lower-cased) and `pathname`
(`"/"` when empty); a string without a `scheme://` prelude fails, matching
the validator's `catch { return false }`. -/
def parseURL (s : Str) : Option URLRec :=
  match splitOnSub "://".data s with
  | none => none
  | some (scheme, rest) =>
    match scheme with
    | [] => none
    | c0 :: _ =>
      if c0.isAlpha && scheme.all isSchemeChar then
        let authority := rest.takeWhile
          (fun c => !(c == '/') && !(c == '?') && !(c == '#'))
        let afterAuth := rest.drop authority.length
        if authority.isEmpty then none
        else
          let host := (afterLastAt authority).takeWhile (fun c => !(c == ':'))
          if host.isEmpty then none
          else
            let path := afterAuth.takeWhile
              (fun c => !(c == '?') && !(c == '#'))
            some ⟨host.map toLowerAscii,
              if path.isEmpty then "/".data else path⟩
      else none

/-- `isValidTeamsUrl(joinUrl)`: parse the URL (`catch → false`) and test
`url.hostname.includes('teams.microsoft.com') &&
 url.pathname.includes('meetup-join')`. -/
def isValidTeamsUrl (joinUrl : Str) : Bool :=
  match parseURL joinUrl with
  | none => false
  | some url =>
      strHasSub "teams.microsoft.com".data url.hostname &&
      strHasSub "meetup-join".data url.pathname

/-- Claim C7 (counterexample): the validator tests the hostname with a
*substring* check, so it accepts a URL whose host is the different domain
`evilteams.microsoft.com` — the claim's "only if the host is
teams.microsoft.com" is false on the code. -/
theorem teams_url_substring_counterexample :
    isValidTeamsUrl "https://evilteams.microsoft.com/meetup-join".data
      = true ∧
    parseURL "https://evilteams.microsoft.com/meetup-join".data =
      some ⟨"evilteams.microsoft.com".data, "/meetup-join".data⟩ ∧
    "evilteams.microsoft.com".data ≠ "teams.microsoft.com".data := by
  exact ⟨rfl, rfl, by decide⟩

/-- Claim C7 (amended): the validator accepts a string exactly when it
parses as a URL whose hostname *contains* `teams.microsoft.com` as a
substring and whose path contains `meetup-join` as a substring; every
unparseable string is rejected. -/
theorem isValidTeamsUrl_iff (u : Str) :
    isValidTeamsUrl u = true ↔
      ∃ r, parseURL u = some r ∧
        strHasSub "teams.microsoft.com".data r.hostname = true ∧
        strHasSub "meetup-join".data r.pathname = true := by
  unfold isValidTeamsUrl
  cases h : parseURL u with
  | none => simp
  | some r => simp [Bool.and_eq_true]

/-! ## Manual join-by-URL (`handleJoinMeeting`) -/

/-- The fields of the Graph call resource the controller reads
(`callInfo.id`, `callInfo.state`). -/
structure CallInfo where
  id : Str
  state : Str
deriving DecidableEq, Repr

/-- The request body of the manual join endpoint; absent fields are
`none`. -/
structure JoinRequest where
  meetingJoinUrl : Option Str
  userId : Option Str
  meetingId : Option Str
deriving DecidableEq, Repr

/-- The endpoint's observable outcome. -/
inductive JoinOutcome where
  | badRequest (msg : Str)
  | joinFailed (msg : Str)
  | joined (callId : Str) (state : Str)
deriving DecidableEq, Repr

/-- JavaScript truthiness of an optional string (absent and `''` are
falsy). -/
def truthyOpt : Option Str → Bool
  | none => false
  | some s => !s.isEmpty

/-- `handleJoinMeeting`: requires a (truthy) join URL, validates it,
creates the call via the collaborator, and records the association for the
new call only when `userId && meetingId` is truthy. -/
def handleJoinMeeting (req : JoinRequest) (joinResult : Except Str CallInfo)
    (m : CallMap) : CallMap × JoinOutcome :=
  match req.meetingJoinUrl with
  | none => (m, .badRequest "meetingJoinUrl is required".data)
  | some u =>
    if u.isEmpty then (m, .badRequest "meetingJoinUrl is required".data)
    else if !(isValidTeamsUrl u) then
      (m, .badRequest "Invalid Teams meeting URL".data)
    else
      match joinResult with
      | .error _ => (m, .joinFailed "Failed to join meeting".data)
      | .ok ci =>
        if truthyOpt req.userId && truthyOpt req.meetingId then
          (mapSet m ci.id ⟨req.meetingId.getD [], req.userId.getD []⟩,
           .joined ci.id ci.state)
        else (m, .joined ci.id ci.state)

/-- Claim C10: the manual join records an association for the newly created
call only when both `userId` and `meetingId` are (truthily) supplied; when
they are not, the call is created (the response is still `joined`) but left
untracked, so a later Terminated event for that call finds no association
and triggers no pipeline handoff. -/
theorem join_without_ids_untracked (req : JoinRequest) (ci : CallInfo)
    (m : CallMap) (u : Str)
    (hurl : req.meetingJoinUrl = some u) (hne : u.isEmpty = false)
    (hvalid : isValidTeamsUrl u = true)
    (habs : mapGet m ci.id = none) :
    ((handleJoinMeeting req (.ok ci) m).2 = .joined ci.id ci.state) ∧
    ((truthyOpt req.userId && truthyOpt req.meetingId) = false →
      (handleJoinMeeting req (.ok ci) m).1 = m ∧
      handleCallTerminated ci.id (handleJoinMeeting req (.ok ci) m).1 =
        ((handleJoinMeeting req (.ok ci) m).1, none)) ∧
    ((truthyOpt req.userId && truthyOpt req.meetingId) = true →
      (handleJoinMeeting req (.ok ci) m).1 =
        mapSet m ci.id ⟨req.meetingId.getD [], req.userId.getD []⟩) := by
  by_cases htr : (truthyOpt req.userId && truthyOpt req.meetingId) = true
  · refine ⟨?_, ?_, ?_⟩
    · simp [handleJoinMeeting, hurl, hne, hvalid, htr]
    · intro hcontra
      rw [htr] at hcontra
      cases hcontra
    · intro _
      simp [handleJoinMeeting, hurl, hne, hvalid, htr]
  · have htr' : (truthyOpt req.userId && truthyOpt req.meetingId) = false := by
      simpa using htr
    have hmap : (handleJoinMeeting req (.ok ci) m).1 = m := by
      simp [handleJoinMeeting, hurl, hne, hvalid, htr']
    refine ⟨?_, ?_, ?_⟩
    · simp [handleJoinMeeting, hurl, hne, hvalid, htr']
    · intro _
      refine ⟨hmap, ?_⟩
      rw [hmap]
      exact handleCallTerminated_absent m ci.id habs
    · intro hcontra
      rw [hcontra] at htr'
      cases htr'

/-- Witness for claim C10: a valid join URL with `userId` absent leaves the
new call untracked and a later termination is a no-op. -/
theorem join_without_ids_untracked_witness :
    (⟨some "https://teams.microsoft.com/l/meetup-join/19%3am%40thread.v2/0".data,
      none, some "m1".data⟩ : JoinRequest).meetingJoinUrl =
      some "https://teams.microsoft.com/l/meetup-join/19%3am%40thread.v2/0".data ∧
    isValidTeamsUrl
      "https://teams.microsoft.com/l/meetup-join/19%3am%40thread.v2/0".data
      = true ∧
    ((handleJoinMeeting
        ⟨some "https://teams.microsoft.com/l/meetup-join/19%3am%40thread.v2/0".data,
         none, some "m1".data⟩
        (.ok ⟨"call1".data, "establishing".data⟩) []).2 =
      .joined "call1".data "establishing".data) ∧
    ((handleJoinMeeting
        ⟨some "https://teams.microsoft.com/l/meetup-join/19%3am%40thread.v2/0".data,
         none, some "m1".data⟩
        (.ok ⟨"call1".data, "establishing".data⟩) []).1 = []) := by
  have h := join_without_ids_untracked
    ⟨some "https://teams.microsoft.com/l/meetup-join/19%3am%40thread.v2/0".data,
     none, some "m1".data⟩
    ⟨"call1".data, "establishing".data⟩ []
    "https://teams.microsoft.com/l/meetup-join/19%3am%40thread.v2/0".data
    rfl rfl (by decide) rfl
  exact ⟨rfl, by decide, h.1, (h.2.1 rfl).1⟩
